import Mathlib

/-!
Shallow embedding of the linked-list stack in `src/stack_linked_list/source.c`.

Heap buffers are modeled as byte lists; a `void *` that may be `NULL` is an
`Option`.  Every call to `malloc` is driven by an explicit Boolean oracle
(`true` = the allocation succeeds), so allocation-failure paths are first-class.
`size_t` fields are modeled as `Nat`: the `size` counter changes by at most one
per operation and each node consumes heap memory, so the 2^64 wraparound of the
C type is unreachable in any execution the allocator can actually serve.
Undefined behavior in the C code (a `memcpy` whose destination is `NULL` or
whose source buffer is too short, and `stack_destroy`'s read through a node
it has just freed) is modeled by returning `none` from the operation: the
program has no defined result on those paths.
-/

/-- Contents of one heap buffer, one `Nat` per byte. -/
abbrev Bytes := List Nat

/-- `struct StackNode { void *data; struct StackNode *next; }`.
The `next` chain is represented by the enclosing `List StackNode`;
`data = none` models a `NULL` payload pointer. -/
structure StackNode where
  data : Option Bytes
deriving Repr, DecidableEq

/-- `struct Stack { size_t size; const size_t data_size; struct StackNode *head; }`.
`head = []` models `head == NULL`. -/
structure Stack where
  size : Nat
  data_size : Nat
  head : List StackNode
deriving Repr, DecidableEq

/-- `bool stack_is_empty (const struct Stack *stack) { return !stack || !stack->head; }`.
The argument is an `Option Stack` because the C pointer may be `NULL`. -/
def stack_is_empty : Option Stack → Bool
  | none => true
  | some st => st.head.isEmpty

/-- `size_t stack_size`: returns `stack->size` when `!stack_is_empty(stack)`,
else `0`. -/
def stack_size (s : Option Stack) : Nat :=
  if stack_is_empty s = false then
    match s with
    | some st => st.size
    | none => 0
  else 0

/-- `static bool stack_allocate`: mallocs a node shell (oracle `nodeOk`) and a
payload buffer (oracle `payloadOk`).  If the node malloc fails it returns
`false` with the stack untouched.  Otherwise it links the new node and returns
`true` — even when the payload malloc failed, in which case the linked node
carries a `NULL` (`none`) payload.  The bytes of a fresh payload are
unspecified in C; they are modeled as zeros and are never observed before
being overwritten. -/
def stack_allocate (st : Stack) (nodeOk payloadOk : Bool) : Bool × Stack :=
  if nodeOk = false then (false, st)
  else
    (true,
      { st with
        head := ⟨if payloadOk then some (List.replicate st.data_size 0) else none⟩ :: st.head })

/-- `bool stack_emplace (struct Stack *stack, void *data)`: rejects `NULL`
data, calls `stack_allocate`, then stores the caller's buffer pointer in the
new head node and increments `size`. -/
def stack_emplace (st : Stack) (data : Option Bytes) (nodeOk payloadOk : Bool) :
    Bool × Stack :=
  match data with
  | none => (false, st)
  | some d =>
    match stack_allocate st nodeOk payloadOk with
    | (false, st') => (false, st')
    | (true, st') =>
      match st'.head with
      | nd :: rest =>
        (true, { st' with head := { nd with data := some d } :: rest, size := st'.size + 1 })
      | [] => (true, st')

/-- `bool stack_push (struct Stack *stack, const void *data)`: rejects `NULL`
data, calls `stack_allocate`, then `memcpy(stack->head->data, data,
stack->data_size)` and increments `size`.  Returns `none` when the `memcpy`
is undefined behavior: the new head's payload is `NULL` (payload malloc
failed) or the source buffer holds fewer than `data_size` bytes. -/
def stack_push (st : Stack) (data : Option Bytes) (nodeOk payloadOk : Bool) :
    Option (Bool × Stack) :=
  match data with
  | none => some (false, st)
  | some d =>
    match stack_allocate st nodeOk payloadOk with
    | (false, st') => some (false, st')
    | (true, st') =>
      match st'.head with
      | nd :: rest =>
        match nd.data with
        | none => none
        | some _ =>
          if st'.data_size ≤ d.length then
            some (true,
              { st' with head := ⟨some (d.take st'.data_size)⟩ :: rest, size := st'.size + 1 })
          else none
      | [] => none

/-- `struct Stack *stack_initialise (const size_t data_size)`: mallocs the
Stack record (oracle `allocOk`); on success copies `{ 0, data_size, NULL }`
into it, on failure returns `NULL`. -/
def stack_initialise (data_size : Nat) (allocOk : Bool) : Option Stack :=
  if allocOk = false then none
  else some { size := 0, data_size := data_size, head := [] }

/-- `bool stack_pop (struct Stack *stack)`: returns `false` when
`stack_is_empty(stack)` (`NULL` handle or empty chain); otherwise unlinks the
head node, frees it and its payload, and decrements `size`. -/
def stack_pop : Option Stack → Bool × Option Stack
  | none => (false, none)
  | some st =>
    match st.head with
    | [] => (false, some st)
    | _ :: rest => (true, some { st with head := rest, size := st.size - 1 })

/-- `void *stack_peek (const struct Stack *stack)`: `NULL` when
`stack_is_empty(stack)`, else `stack->head->data` (which is itself `NULL`
when the payload pointer is `NULL`). -/
def stack_peek : Option Stack → Option Bytes
  | none => none
  | some st =>
    match st.head with
    | [] => none
    | nd :: _ => nd.data

/-- Loop of `stack_destroy`, traced literally.  One iteration on a chain
`nd :: tl` does: `free(stack_peek(stack))` (frees `nd`'s payload), then
`next = stack->head->next; stack->head = stack->head->next; free(next)` —
so it frees the node that has just BECOME the head, never `nd`'s own shell —
then `size--`.  If `tl` is empty, `free(next)` is `free(NULL)`, the guard
`!stack_is_empty` now fails and the loop exits with state
`(size - 1, NULL)` (the shell of `nd` is leaked).  If `tl` is non-empty,
the guard passes and the next iteration's `stack_peek` dereferences
`stack->head->data` through the node `free(next)` just released:
use-after-free, undefined behavior, modeled as `none`. -/
def destroy_loop : List StackNode → Nat → Option (Nat × List StackNode)
  | [], size => some (size, [])
  | _ :: tl, size =>
    match tl with
    | [] => some (size - 1, [])
    | _ :: _ => none

/-- `void stack_destroy (struct Stack *stack)`: runs the freeing loop while
`!stack_is_empty(stack)`; a `NULL` handle is left alone (the loop guard is
false).  The Stack record itself is not freed.  The outer `none` is the
loop's undefined behavior on chains of two or more nodes. -/
def stack_destroy : Option Stack → Option (Option Stack)
  | none => some none
  | some st =>
    match destroy_loop st.head st.size with
    | none => none
    | some r => some (some { st with size := r.1, head := r.2 })

/-- One mutating call on a (non-`NULL`) stack, with its malloc oracles. -/
inductive Op where
  | push (v : Option Bytes) (nodeOk payloadOk : Bool)
  | emplace (v : Option Bytes) (nodeOk payloadOk : Bool)
  | pop
  | destroy
deriving Repr, DecidableEq

/-- Executes one operation; `none` when the C code hits undefined behavior. -/
def execOp (st : Stack) : Op → Option Stack
  | .push v n p => (stack_push st v n p).map Prod.snd
  | .emplace v n p => some (stack_emplace st v n p).2
  | .pop => (stack_pop (some st)).2
  | .destroy =>
    match stack_destroy (some st) with
    | some (some st') => some st'
    | _ => none

/-- Executes a sequence of operations from a given stack state. -/
def run (st : Stack) : List Op → Option Stack
  | [] => some st
  | op :: rest =>
    match execOp st op with
    | none => none
    | some st' => run st' rest

/-- The structural invariant tying the `size` counter to the node chain. -/
def SizeInv (st : Stack) : Prop := st.head.length = st.size

/-- C10: On a `NULL` stack handle, `stack_pop` returns `false` and
`stack_peek` returns `NULL`, via the null check inside `stack_is_empty`,
with no state touched. -/
theorem stack_null_handle_tolerated :
    stack_pop none = (false, none) ∧ stack_peek none = none ∧
    stack_is_empty none = true :=
  ⟨rfl, rfl, rfl⟩

/-- C7: On any empty stack, `stack_pop` returns `false` and changes nothing,
and `stack_peek` returns `NULL`. -/
theorem stack_pop_peek_on_empty (st : Stack) (h : st.head = []) :
    stack_pop (some st) = (false, some st) ∧ stack_peek (some st) = none := by
  constructor <;> simp [stack_pop, stack_peek, h]

/-- Witness for C7 at a freshly created stack. -/
theorem stack_pop_peek_on_empty_witness :
    ({ size := 0, data_size := 1, head := [] } : Stack).head = [] ∧
    stack_pop (some { size := 0, data_size := 1, head := [] }) =
      (false, some { size := 0, data_size := 1, head := [] }) ∧
    stack_peek (some { size := 0, data_size := 1, head := [] }) = none :=
  ⟨rfl, (stack_pop_peek_on_empty _ rfl).1, (stack_pop_peek_on_empty _ rfl).2⟩

/-- C3: The code bug behind the payload-allocation part of the claim.  When
the node-shell malloc succeeds but the payload malloc fails, `stack_allocate`
still returns `true` and links a node whose payload is `NULL`, so the stack
IS mutated and no failure is reported; `stack_push` then reaches
`memcpy(NULL, data, data_size)`, which is undefined behavior (modeled as
`none`) instead of returning `false` with the stack unchanged. -/
theorem stack_push_payload_failure_bug :
    stack_allocate { size := 0, data_size := 4, head := [] } true false =
      (true, { size := 0, data_size := 4, head := [{ data := none }] }) ∧
    stack_push { size := 0, data_size := 4, head := [] }
      (some [1, 2, 3, 4]) true false = none := by
  constructor <;> rfl

/-- C5: A value pushed by `stack_push` is read back verbatim by an immediate
`stack_peek`; a buffer adopted by `stack_emplace` is returned exactly by an
immediate `stack_peek`. -/
theorem stack_push_emplace_peek_roundtrip
    (st : Stack) (v b : Bytes) (nOk pOk nOk2 pOk2 : Bool)
    (hlen : v.length = st.data_size) :
    (∀ st', stack_push st (some v) nOk pOk = some (true, st') →
      stack_peek (some st') = some v) ∧
    (∀ st', stack_emplace st (some b) nOk2 pOk2 = (true, st') →
      stack_peek (some st') = some b) := by
  have htake : v.take st.data_size = v := by
    rw [← hlen]; exact List.take_length v
  constructor
  · intro st' h
    cases nOk with
    | false => simp [stack_push, stack_allocate] at h
    | true =>
      cases pOk with
      | false => simp [stack_push, stack_allocate] at h
      | true =>
        have hle : st.data_size ≤ v.length := le_of_eq hlen.symm
        simp [stack_push, stack_allocate, hle] at h
        rw [← h]
        simp [stack_peek, htake]
  · intro st' h
    cases nOk2 with
    | false => simp [stack_emplace, stack_allocate] at h
    | true =>
      simp [stack_emplace, stack_allocate] at h
      rw [← h]
      simp [stack_peek]

/-- Witness for C5 with a two-byte element pushed and a buffer emplaced. -/
theorem stack_push_emplace_peek_roundtrip_witness :
    ([3, 7] : Bytes).length = ({ size := 0, data_size := 2, head := [] } : Stack).data_size ∧
    stack_peek (some { size := 1, data_size := 2, head := [{ data := some [3, 7] }] }) =
      some [3, 7] ∧
    stack_peek (some { size := 1, data_size := 2, head := [{ data := some [9] }] }) =
      some [9] := by
  have h := stack_push_emplace_peek_roundtrip
    { size := 0, data_size := 2, head := [] } [3, 7] [9] true true true true (by decide)
  exact ⟨by decide, h.1 _ (by decide), h.2 _ (by decide)⟩

/-- C8: `stack_push` and `stack_emplace` reject a `NULL` data pointer,
returning `false` with the stack unchanged; whenever `stack_emplace` reports
failure the stack is unchanged, so it has not taken ownership of the
caller's buffer. -/
theorem stack_null_data_rejected (st : Stack) (nOk pOk : Bool) (b : Bytes) :
    stack_push st none nOk pOk = some (false, st) ∧
    stack_emplace st none nOk pOk = (false, st) ∧
    ((stack_emplace st (some b) nOk pOk).1 = false →
      (stack_emplace st (some b) nOk pOk).2 = st) := by
  refine ⟨rfl, rfl, ?_⟩
  intro h
  cases nOk with
  | false => simp [stack_emplace, stack_allocate]
  | true => simp [stack_emplace, stack_allocate] at h

/-- Witness for C8 on a fresh stack with a failing node-shell malloc. -/
theorem stack_null_data_rejected_witness :
    stack_push { size := 0, data_size := 1, head := [] } none false true =
      some (false, { size := 0, data_size := 1, head := [] }) ∧
    stack_emplace { size := 0, data_size := 1, head := [] } none false true =
      (false, { size := 0, data_size := 1, head := [] }) ∧
    (stack_emplace { size := 0, data_size := 1, head := [] } (some [5]) false true).2 =
      { size := 0, data_size := 1, head := [] } := by
  have h := stack_null_data_rejected { size := 0, data_size := 1, head := [] } false true [5]
  exact ⟨h.1, h.2.1, h.2.2 (by decide)⟩

/-- C9: `stack_initialise` returns a stack with `size = 0`, `head = NULL`
and the given `data_size` whenever the record malloc succeeds, and `NULL`
exactly when it fails; and no operation (`push`, `emplace`, `pop`,
`destroy`) ever changes the recorded `data_size`. -/
theorem stack_initialise_spec (ds : Nat) (_hpos : 0 < ds) :
    stack_initialise ds true = some { size := 0, data_size := ds, head := [] } ∧
    stack_initialise ds false = none ∧
    (∀ (st : Stack) (v : Option Bytes) (n p : Bool) (r : Bool × Stack),
      stack_push st v n p = some r → r.2.data_size = st.data_size) ∧
    (∀ (st : Stack) (v : Option Bytes) (n p : Bool),
      (stack_emplace st v n p).2.data_size = st.data_size) ∧
    (∀ (st st' : Stack) (b : Bool),
      stack_pop (some st) = (b, some st') → st'.data_size = st.data_size) ∧
    (∀ (st st' : Stack),
      stack_destroy (some st) = some (some st') → st'.data_size = st.data_size) := by
  refine ⟨rfl, rfl, ?_, ?_, ?_, ?_⟩
  · intro st v n p r h
    match v with
    | none => simp [stack_push] at h; rw [← h]
    | some d =>
      cases n with
      | false => simp [stack_push, stack_allocate] at h; rw [← h]
      | true =>
        cases p with
        | false => simp [stack_push, stack_allocate] at h
        | true =>
          by_cases hle : st.data_size ≤ d.length
          · simp [stack_push, stack_allocate, hle] at h
            rw [← h]
          · simp [stack_push, stack_allocate, hle] at h
  · intro st v n p
    match v with
    | none => rfl
    | some d =>
      cases n with
      | false => rfl
      | true => rfl
  · intro st st' b h
    match hh : st.head with
    | [] => simp [stack_pop, hh] at h; rw [← h.2]
    | nd :: rest => simp [stack_pop, hh] at h; rw [← h.2]
  · intro st st' h
    match hh : st.head with
    | [] =>
      simp [stack_destroy, destroy_loop, hh] at h
      rw [← h]
    | [nd] =>
      simp [stack_destroy, destroy_loop, hh] at h
      rw [← h]
    | nd :: nd2 :: tl =>
      simp [stack_destroy, destroy_loop, hh] at h

/-- Witness for C9 at `elementSize = 4`. -/
theorem stack_initialise_spec_witness :
    0 < 4 ∧
    stack_initialise 4 true = some { size := 0, data_size := 4, head := [] } ∧
    stack_initialise 4 false = none :=
  ⟨by decide, (stack_initialise_spec 4 (by decide)).1,
    (stack_initialise_spec 4 (by decide)).2.1⟩

/-- Whenever the destroy loop has defined behavior, the chain held at most
one node and the final loop state is `(size - length, NULL)`. -/
theorem destroy_loop_spec (ns : List StackNode) (size : Nat)
    (r : Nat × List StackNode) (h : destroy_loop ns size = some r) :
    ns.length ≤ 1 ∧ r = (size - ns.length, []) := by
  match ns with
  | [] =>
    simp [destroy_loop] at h
    simp [← h]
  | [nd] =>
    simp [destroy_loop] at h
    simp [← h]
  | nd :: nd2 :: tl =>
    simp [destroy_loop] at h

/-- Every single operation preserves the size/chain-length invariant. -/
theorem execOp_sizeInv (st st' : Stack) (op : Op)
    (hinv : SizeInv st) (h : execOp st op = some st') : SizeInv st' := by
  unfold SizeInv at *
  cases op with
  | push v n p =>
    match v with
    | none =>
      simp [execOp, stack_push] at h
      subst h
      exact hinv
    | some d =>
      cases n with
      | false =>
        simp [execOp, stack_push, stack_allocate] at h
        subst h
        exact hinv
      | true =>
        cases p with
        | false => simp [execOp, stack_push, stack_allocate] at h
        | true =>
          by_cases hle : st.data_size ≤ d.length
          · simp [execOp, stack_push, stack_allocate, hle] at h
            rw [← h]
            simp
            omega
          · simp [execOp, stack_push, stack_allocate, hle] at h
  | emplace v n p =>
    match v with
    | none =>
      simp [execOp, stack_emplace] at h
      subst h
      exact hinv
    | some d =>
      cases n with
      | false =>
        simp [execOp, stack_emplace, stack_allocate] at h
        subst h
        exact hinv
      | true =>
        simp [execOp, stack_emplace, stack_allocate] at h
        rw [← h]
        simp
        omega
  | pop =>
    match hh : st.head with
    | [] =>
      simp [execOp, stack_pop, hh] at h
      subst h
      exact hinv
    | nd :: rest =>
      simp [execOp, stack_pop, hh] at h
      rw [← h]
      simp
      rw [hh] at hinv
      simp at hinv
      omega
  | destroy =>
    match hh : st.head with
    | [] =>
      simp [execOp, stack_destroy, destroy_loop, hh] at h
      rw [← h]
      simp
      rw [hh] at hinv
      simp at hinv
      omega
    | [nd] =>
      simp [execOp, stack_destroy, destroy_loop, hh] at h
      rw [← h]
      simp
      rw [hh] at hinv
      simp at hinv
      omega
    | nd :: nd2 :: tl =>
      simp [execOp, stack_destroy, destroy_loop, hh] at h

/-- Running any operation sequence preserves the size/chain-length
invariant. -/
theorem run_sizeInv (ops : List Op) (st st' : Stack)
    (hinv : SizeInv st) (h : run st ops = some st') : SizeInv st' := by
  induction ops generalizing st with
  | nil =>
    simp [run] at h
    rw [← h]
    exact hinv
  | cons op rest ih =>
    unfold run at h
    match hex : execOp st op with
    | none => rw [hex] at h; simp at h
    | some st1 =>
      rw [hex] at h
      simp at h
      exact ih st1 (execOp_sizeInv st st1 op hinv hex) h

/-- C2: In every stack state reachable from `stack_initialise` by any
sequence of `stack_push`, `stack_emplace`, `stack_pop` and `stack_destroy`,
`size == 0` iff `head == NULL`, the node chain has exactly `size` nodes, and
`stack_is_empty` is true iff `stack_size` returns `0`. -/
theorem stack_reachable_invariant (ds : Nat) (aOk : Bool) (st0 st' : Stack)
    (ops : List Op) (h0 : stack_initialise ds aOk = some st0)
    (hrun : run st0 ops = some st') :
    (st'.size = 0 ↔ st'.head = []) ∧
    st'.head.length = st'.size ∧
    (stack_is_empty (some st') = true ↔ stack_size (some st') = 0) := by
  cases aOk with
  | false => simp [stack_initialise] at h0
  | true =>
    simp [stack_initialise] at h0
    have hinv0 : SizeInv st0 := by
      unfold SizeInv
      rw [← h0]
      rfl
    have hinv := run_sizeInv ops st0 st' hinv0 hrun
    unfold SizeInv at hinv
    refine ⟨?_, hinv, ?_⟩
    · constructor
      · intro hz
        rw [← hinv] at hz
        exact List.length_eq_zero.mp hz
      · intro hz
        rw [← hinv, hz]
        rfl
    · match hh : st'.head with
      | [] =>
        rw [hh] at hinv
        simp at hinv
        simp [stack_is_empty, stack_size, hh, ← hinv]
      | nd :: rest =>
        rw [hh] at hinv
        simp at hinv
        simp [stack_is_empty, stack_size, hh]
        omega

/-- Witness for C2: one push then one pop from a fresh one-byte stack. -/
theorem stack_reachable_invariant_witness :
    (({ size := 0, data_size := 1, head := [] } : Stack).size = 0 ↔
      ({ size := 0, data_size := 1, head := [] } : Stack).head = []) ∧
    ({ size := 0, data_size := 1, head := [] } : Stack).head.length =
      ({ size := 0, data_size := 1, head := [] } : Stack).size ∧
    (stack_is_empty (some { size := 0, data_size := 1, head := [] }) = true ↔
      stack_size (some { size := 0, data_size := 1, head := [] }) = 0) :=
  stack_reachable_invariant 1 true { size := 0, data_size := 1, head := [] }
    { size := 0, data_size := 1, head := [] }
    [Op.push (some [5]) true true, Op.pop] rfl (by decide)

/-- Number of push operations in a sequence. -/
def countPush : List Op → Nat
  | [] => 0
  | Op.push _ _ _ :: rest => countPush rest + 1
  | _ :: rest => countPush rest

/-- Number of pop operations in a sequence. -/
def countPop : List Op → Nat
  | [] => 0
  | Op.pop :: rest => countPop rest + 1
  | _ :: rest => countPop rest

/-- The sequence consists only of pops and of successful pushes: each push
carries a non-`NULL` value of exactly `ds` bytes and both mallocs succeed. -/
def pushPopOnly (ds : Nat) : List Op → Bool
  | [] => true
  | Op.push (some v) true true :: rest => v.length == ds && pushPopOnly ds rest
  | Op.pop :: rest => pushPopOnly ds rest
  | _ => false

/-- Each pop follows the pushes it pops: at every point the number of pops
so far is at most `credit` (elements already on the stack) plus the number
of pushes so far. -/
def balancedFrom (credit : Nat) : List Op → Bool
  | [] => true
  | Op.pop :: rest => decide (0 < credit) && balancedFrom (credit - 1) rest
  | Op.push _ _ _ :: rest => balancedFrom (credit + 1) rest
  | _ :: rest => balancedFrom credit rest

/-- Running a balanced push/pop sequence never fails, and the final `size`
is the initial one plus pushes minus pops. -/
theorem run_pushPop (ds : Nat) : ∀ (ops : List Op) (st : Stack),
    st.data_size = ds → pushPopOnly ds ops = true →
    st.head.length = st.size → balancedFrom st.size ops = true →
    ∃ st', run st ops = some st' ∧
      st'.size + countPop ops = st.size + countPush ops ∧
      st'.head.length = st'.size ∧ st'.data_size = ds := by
  intro ops
  induction ops with
  | nil =>
    intro st h1 h2 h3 h4
    exact ⟨st, rfl, by simp [countPush, countPop], h3, h1⟩
  | cons op rest ih =>
    intro st h1 h2 h3 h4
    match op with
    | Op.push (some v) true true =>
      simp [pushPopOnly] at h2
      obtain ⟨hv, h2'⟩ := h2
      simp [balancedFrom] at h4
      have hle : st.data_size ≤ v.length := by rw [h1, hv]
      have hexec : execOp st (Op.push (some v) true true) =
          some ⟨st.size + 1, st.data_size, ⟨some (v.take st.data_size)⟩ :: st.head⟩ := by
        simp [execOp, stack_push, stack_allocate, hle]
      obtain ⟨st', hrun, hcount, hinv', hds⟩ :=
        ih ⟨st.size + 1, st.data_size, ⟨some (v.take st.data_size)⟩ :: st.head⟩
          h1 h2' (by simp [h3]) h4
      refine ⟨st', ?_, ?_, hinv', hds⟩
      · unfold run
        rw [hexec]
        exact hrun
      · simp [countPush, countPop] at *
        omega
    | Op.pop =>
      simp [pushPopOnly] at h2
      simp [balancedFrom] at h4
      obtain ⟨hpos, h4'⟩ := h4
      match hh : st.head with
      | [] =>
        rw [hh] at h3
        simp at h3
        omega
      | nd :: tl =>
        have hexec : execOp st Op.pop =
            some ⟨st.size - 1, st.data_size, tl⟩ := by
          simp [execOp, stack_pop, hh]
        obtain ⟨st', hrun, hcount, hinv', hds⟩ :=
          ih ⟨st.size - 1, st.data_size, tl⟩
            h1 h2
            (by
              simp
              rw [hh] at h3
              simp at h3
              omega)
            h4'
        refine ⟨st', ?_, ?_, hinv', hds⟩
        · unfold run
          rw [hexec]
          exact hrun
        · simp [countPush, countPop] at *
          omega
    | Op.push none nOk pOk => simp [pushPopOnly] at h2
    | Op.push (some v) false pOk => simp [pushPopOnly] at h2
    | Op.push (some v) true false => simp [pushPopOnly] at h2
    | Op.emplace v nOk pOk => simp [pushPopOnly] at h2
    | Op.destroy => simp [pushPopOnly] at h2

/-- C4: From a fresh stack, after k successful pushes and j pops with each
pop following the pushes it removes, `stack_size` returns k - j and
`stack_is_empty` is true exactly when k - j = 0. -/
theorem stack_size_after_pushes_pops (ds : Nat) (ops : List Op) (st0 : Stack)
    (h0 : stack_initialise ds true = some st0)
    (hops : pushPopOnly ds ops = true)
    (hbal : balancedFrom 0 ops = true) :
    (run st0 ops).isSome = true ∧
    ∀ st', run st0 ops = some st' →
      stack_size (some st') = countPush ops - countPop ops ∧
      (stack_is_empty (some st') = true ↔ countPush ops - countPop ops = 0) := by
  simp [stack_initialise] at h0
  obtain ⟨st', hrun, hcount, hinv, hds⟩ :=
    run_pushPop ds ops st0 (by rw [← h0]) hops (by rw [← h0]; rfl)
      (by rw [← h0]; exact hbal)
  have hsz0 : st0.size = 0 := by rw [← h0]
  rw [hsz0] at hcount
  constructor
  · rw [hrun]; rfl
  · intro st'' hrun''
    rw [hrun] at hrun''
    have hst : st' = st'' := by
      simpa using hrun''
    subst hst
    have hsize : stack_size (some st') = st'.size := by
      match hh : st'.head with
      | [] =>
        rw [hh] at hinv
        simp at hinv
        simp [stack_size, stack_is_empty, hh, ← hinv]
      | nd :: tl =>
        simp [stack_size, stack_is_empty, hh]
    constructor
    · rw [hsize]; omega
    · match hh : st'.head with
      | [] =>
        rw [hh] at hinv
        simp at hinv
        simp [stack_is_empty, hh]
        omega
      | nd :: tl =>
        rw [hh] at hinv
        simp at hinv
        simp [stack_is_empty, hh]
        omega

/-- Witness for C4: two pushes then one pop on a one-byte stack. -/
theorem stack_size_after_pushes_pops_witness :
    ((run { size := 0, data_size := 1, head := [] }
        [Op.push (some [2]) true true, Op.push (some [3]) true true, Op.pop]).isSome
      = true) ∧
    stack_size (some { size := 1, data_size := 1, head := [{ data := some [2] }] }) =
      countPush [Op.push (some [2]) true true, Op.push (some [3]) true true, Op.pop] -
      countPop [Op.push (some [2]) true true, Op.push (some [3]) true true, Op.pop] ∧
    (stack_is_empty (some { size := 1, data_size := 1, head := [{ data := some [2] }] })
        = true ↔
      countPush [Op.push (some [2]) true true, Op.push (some [3]) true true, Op.pop] -
      countPop [Op.push (some [2]) true true, Op.push (some [3]) true true, Op.pop] = 0) := by
  have h := stack_size_after_pushes_pops 1
    [Op.push (some [2]) true true, Op.push (some [3]) true true, Op.pop]
    { size := 0, data_size := 1, head := [] } rfl (by decide) (by decide)
  exact ⟨h.1, (h.2 _ (by decide)).1, (h.2 _ (by decide)).2⟩

/-- Pushes the values in order with succeeding mallocs, stopping (with
`none`) if any push does not return `true`. -/
def pushAll (st : Stack) : List Bytes → Option Stack
  | [] => some st
  | v :: rest =>
    match stack_push st (some v) true true with
    | some (true, st') => pushAll st' rest
    | _ => none

/-- Observations of the pop phase: for `n` rounds, record `stack_peek`
before each `stack_pop`. -/
def peekPopSeq : Option Stack → Nat → List (Option Bytes)
  | _, 0 => []
  | s, n + 1 => stack_peek s :: peekPopSeq (stack_pop s).2 n

/-- Pushing well-sized values always succeeds and prepends them, reversed,
to the node chain. -/
theorem pushAll_spec : ∀ (vs : List Bytes) (st : Stack),
    (∀ v ∈ vs, v.length = st.data_size) →
    ∃ st', pushAll st vs = some st' ∧
      st'.head = (vs.reverse.map fun v => (⟨some v⟩ : StackNode)) ++ st.head ∧
      st'.data_size = st.data_size := by
  intro vs
  induction vs with
  | nil =>
    intro st hlen
    exact ⟨st, rfl, by simp, rfl⟩
  | cons v rest ih =>
    intro st hlen
    have hv : v.length = st.data_size := hlen v (by simp)
    have hle : st.data_size ≤ v.length := le_of_eq hv.symm
    have htake : v.take st.data_size = v := by
      rw [← hv]; exact List.take_length v
    have hpush : stack_push st (some v) true true =
        some (true, ⟨st.size + 1, st.data_size, ⟨some v⟩ :: st.head⟩) := by
      simp [stack_push, stack_allocate, hle, htake]
    obtain ⟨st', hp, hhead, hds⟩ :=
      ih ⟨st.size + 1, st.data_size, ⟨some v⟩ :: st.head⟩
        (fun w hw => hlen w (by simp [hw]))
    refine ⟨st', ?_, ?_, hds⟩
    · unfold pushAll
      rw [hpush]
      exact hp
    · rw [hhead]
      simp

/-- Peek-then-pop, repeated once per node, reads off exactly the node chain's
payloads in order. -/
theorem peekPopSeq_spec : ∀ (ns : List StackNode) (st : Stack),
    st.head = ns →
    peekPopSeq (some st) ns.length = ns.map StackNode.data := by
  intro ns
  induction ns with
  | nil =>
    intro st hh
    simp [peekPopSeq]
  | cons nd tl ih =>
    intro st hh
    simp only [List.length_cons, peekPopSeq, List.map_cons]
    have h1 : stack_peek (some st) = nd.data := by simp [stack_peek, hh]
    have hpop : (stack_pop (some st)).2 = some ⟨st.size - 1, st.data_size, tl⟩ := by
      simp [stack_pop, hh]
    rw [h1, hpop, ih ⟨st.size - 1, st.data_size, tl⟩ rfl]

/-- C1: After pushing p1..pn (all pushes succeeding) on a freshly created
stack, peeking before each of n pops returns p_n, p_(n-1), ..., p_1: LIFO
order. -/
theorem stack_lifo_order (ds : Nat) (vs : List Bytes) (st0 : Stack)
    (h0 : stack_initialise ds true = some st0)
    (hlen : ∀ v ∈ vs, v.length = ds) :
    (pushAll st0 vs).isSome = true ∧
    ∀ st, pushAll st0 vs = some st →
      peekPopSeq (some st) vs.length = vs.reverse.map some := by
  simp [stack_initialise] at h0
  obtain ⟨st', hp, hhead, hds⟩ := pushAll_spec vs st0
    (by intro v hv; rw [← h0]; exact hlen v hv)
  have hhead' : st'.head = vs.reverse.map fun v => (⟨some v⟩ : StackNode) := by
    rw [hhead, ← h0]
    simp
  constructor
  · rw [hp]; rfl
  · intro st hst
    rw [hp] at hst
    have hst' : st' = st := by simpa using hst
    subst hst'
    have hs := peekPopSeq_spec (vs.reverse.map fun v => (⟨some v⟩ : StackNode)) st' hhead'
    simp at hs
    simpa using hs

/-- Witness for C1: pushing 3 then 7 on a one-byte stack peeks 7 then 3. -/
theorem stack_lifo_order_witness :
    (pushAll { size := 0, data_size := 1, head := [] } [[3], [7]]).isSome = true ∧
    peekPopSeq (some (⟨2, 1, [⟨some [7]⟩, ⟨some [3]⟩]⟩ : Stack)) 2 =
      [some [7], some [3]] := by
  have h := stack_lifo_order 1 [[3], [7]] { size := 0, data_size := 1, head := [] }
    rfl (by decide)
  exact ⟨h.1, h.2 _ (by decide)⟩

/-- C6: The code bug refuting the claim.  The destroy loop frees
`stack->head->next` — the node that has just become the head — instead of
the old head (`next = stack->head->next; stack->head = stack->head->next;
free(next)`).  On a two-element stack the second iteration's guard and
`stack_peek` read through the node `free(next)` just released:
use-after-free, undefined behavior (`none`), so there is no defined
post-state at all, let alone one in which every node was released and
pop/peek act as on a fresh stack.  On a one-element stack the loop does
terminate with `size == 0` and `head == NULL`, but there `free(next)` was
`free(NULL)`: the single node's shell is never released. -/
theorem stack_destroy_use_after_free_bug :
    stack_destroy (some (⟨2, 1, [⟨some [4]⟩, ⟨some [6]⟩]⟩ : Stack)) = none ∧
    stack_destroy (some (⟨1, 1, [⟨some [4]⟩]⟩ : Stack)) =
      some (some (⟨0, 1, []⟩ : Stack)) := by
  constructor <;> rfl
